import Mathlib

/-!
Verification of the page-set transformation engine of a client-side PDF
toolkit (pdfService.js).  The JavaScript core is shallowly embedded:

* strings are processed as their character lists, mirroring the String
  methods split, trim, includes used by the source;
* JavaScript parseInt is modelled as an Option Int (none plays the role
  of NaN: every numeric comparison against it is false, as in JS);
* a PDF document is abstracted to the data each operation reads and
  writes: the page list for merge/split, the per-page rotation value for
  rotate, the media box for crop, the per-page text runs for table
  extraction.

All definitions are executable so that concrete inputs evaluate by
decide or rfl.
-/

namespace PdfService

/-- Whitespace test used by the embedded String.trim and the table
splitting heuristic (space, tab, carriage return, newline — the
characters the source data can actually contain). -/
def jsWhitespace (c : Char) : Bool := c.isWhitespace

/-- Character-list version of String.prototype.trim: drop whitespace
from both ends. -/
def trimChars (l : List Char) : List Char :=
  ((l.dropWhile jsWhitespace).reverse.dropWhile jsWhitespace).reverse

/-- Embedded String.prototype.trim. -/
def jsTrim (s : String) : String := String.mk (trimChars s.data)

/-- Character-list splitter underlying String.prototype.split with a
single-character separator: always returns at least one (possibly
empty) piece, one more piece per separator occurrence. -/
def splitCharsOn (sep : Char) : List Char → List (List Char)
  | [] => [[]]
  | c :: rest =>
    if c = sep then [] :: splitCharsOn sep rest
    else
      match splitCharsOn sep rest with
      | [] => [[c]]
      | h :: t => (c :: h) :: t

/-- Embedded String.prototype.split(sep) for a one-character separator. -/
def jsSplitOnChar (sep : Char) (s : String) : List String :=
  (splitCharsOn sep s.data).map String.mk

/-- Embedded String.prototype.includes for a one-character needle. -/
def jsIncludes (s : String) (c : Char) : Bool := s.data.contains c

/-- Numeric value of a list of decimal digit characters. -/
def decDigitsVal (ds : List Char) : Nat :=
  ds.foldl (fun acc c => acc * 10 + (c.toNat - 48)) 0

/-- Hexadecimal digit test for the 0x form of parseInt. -/
def isHexDigit (c : Char) : Bool :=
  c.isDigit || (97 ≤ c.toNat && c.toNat ≤ 102) || (65 ≤ c.toNat && c.toNat ≤ 70)

/-- Numeric value of a list of hexadecimal digit characters. -/
def hexDigitsVal (ds : List Char) : Nat :=
  ds.foldl (fun acc c =>
    acc * 16 +
      (if c.isDigit then c.toNat - 48
       else if 97 ≤ c.toNat then c.toNat - 87
       else c.toNat - 55)) 0

/-- Maximal decimal-digit prefix, as a value; none when there is no
digit (parseInt then yields NaN). -/
def decPrefixVal (cs : List Char) : Option Nat :=
  let ds := cs.takeWhile Char.isDigit
  if ds.isEmpty then none else some (decDigitsVal ds)

/-- Embedded JavaScript parseInt with the default radix: skip leading
whitespace, read an optional sign, then either a 0x/0X hexadecimal
literal or a maximal decimal-digit prefix; none models NaN (no digit at
all). -/
def jsParseInt (s : String) : Option Int :=
  let cs := s.data.dropWhile jsWhitespace
  let (sign, body) : Int × List Char :=
    match cs with
    | '-' :: rest => (-1, rest)
    | '+' :: rest => (1, rest)
    | rest => (1, rest)
  match body with
  | '0' :: x :: rest =>
    if x = 'x' ∨ x = 'X' then
      let hs := rest.takeWhile isHexDigit
      if hs.isEmpty then none else some (sign * (hexDigitsVal hs : Int))
    else
      (decPrefixVal body).map (fun n => sign * (n : Int))
  | _ => (decPrefixVal body).map (fun n => sign * (n : Int))

/-- Embedded JavaScript parseInt with an explicit radix 10 (used by the
chunk-size parsing): as jsParseInt but with no hexadecimal form. -/
def jsParseInt10 (s : String) : Option Int :=
  let cs := s.data.dropWhile jsWhitespace
  let (sign, body) : Int × List Char :=
    match cs with
    | '-' :: rest => (-1, rest)
    | '+' :: rest => (1, rest)
    | rest => (1, rest)
  (decPrefixVal body).map (fun n => sign * (n : Int))

/-- A parsed page range, 1-based inclusive.  The field stop embeds the
source property named end (a Lean keyword). -/
structure PageRange where
  start : Int
  stop : Int
deriving DecidableEq, Repr

instance : Inhabited PageRange := ⟨⟨1, 1⟩⟩

/-- Body of the loop of PdfService._parseRanges for one comma-separated
token: trim it; a token containing a hyphen is split on the hyphen and
its first two pieces parsed (destructuring; a missing piece is
undefined, and comparisons against undefined or NaN are false, modelled
by the Option match); otherwise the token itself is parsed as a single
page.  The guards start greater or equal 1, end less or equal maxPages,
start less or equal end are exactly the source conditions; a token
failing them contributes nothing. -/
def parseRangeToken (maxPages : Int) (part : String) : Option PageRange :=
  let trimmed := jsTrim part
  if jsIncludes trimmed '-' then
    let nums := (jsSplitOnChar '-' trimmed).map (fun n => jsParseInt (jsTrim n))
    match nums[0]?, nums[1]? with
    | some (some s), some (some e) =>
      if s ≥ 1 ∧ e ≤ maxPages ∧ s ≤ e then some ⟨s, e⟩ else none
    | _, _ => none
  else
    match jsParseInt trimmed with
    | some page => if page ≥ 1 ∧ page ≤ maxPages then some ⟨page, page⟩ else none
    | none => none

/-- Conditional push used by the source loops: when the token parse
succeeds, append the result to the accumulator, else keep the
accumulator (the silent drop of a rejected token). -/
def pushIfSome {α β : Type} (f : α → Option β) (rs : List β) (p : α) : List β :=
  match f p with
  | some r => rs ++ [r]
  | none => rs

/-- Embedded PdfService._parseRanges: split the expression on commas and
fold the loop over the tokens, pushing each accepted range onto the
accumulator in order. -/
def parseRanges (rangesString : String) (maxPages : Int) : List PageRange :=
  (jsSplitOnChar ',' rangesString).foldl (pushIfSome (parseRangeToken maxPages)) []

end PdfService

namespace PdfService

/-- The push-onto-accumulator fold of parseRanges is a filterMap over
the comma-separated tokens. -/
theorem foldl_push_eq_filterMap {α β : Type} (f : α → Option β) :
    ∀ (l : List α) (acc : List β),
      l.foldl (pushIfSome f) acc = acc ++ l.filterMap f := by
  intro l
  induction l with
  | nil => intro acc; simp
  | cons a t ih =>
    intro acc
    cases h : f a with
    | none => simp [List.foldl_cons, pushIfSome, h, ih]
    | some b => simp [List.foldl_cons, pushIfSome, h, ih]

theorem parseRanges_eq_filterMap (s : String) (m : Int) :
    parseRanges s m = (jsSplitOnChar ',' s).filterMap (parseRangeToken m) := by
  have h := foldl_push_eq_filterMap (parseRangeToken m) (jsSplitOnChar ',' s) []
  rw [List.nil_append] at h
  exact h

/-- Every token the parser accepts satisfies the source guards: both
endpoints inside the 1..maxPages window and start at most end. -/
theorem parseRangeToken_sound (m : Int) (part : String) (r : PageRange)
    (h : parseRangeToken m part = some r) :
    1 ≤ r.start ∧ r.start ≤ r.stop ∧ r.stop ≤ m := by
  unfold parseRangeToken at h
  dsimp only at h
  split at h
  · split at h
    · split at h
      · rename_i hcond
        cases h
        exact ⟨hcond.1, hcond.2.2, hcond.2.1⟩
      · exact absurd h (by simp)
    · exact absurd h (by simp)
  · split at h
    · split at h
      · rename_i hcond
        cases h
        exact ⟨hcond.1, le_refl _, hcond.2⟩
      · exact absurd h (by simp)
    · exact absurd h (by simp)

end PdfService

/-- C4: parsing the expression 1-3,5,7-9 with maxPage 10 returns exactly
the ranges (1,3), (5,5), (7,9); in general the result is the filterMap
of the token parse over the comma-separated tokens, so ranges appear in
input token order with no canonicalization and no merging of
overlapping ranges (witnessed concretely by the parse of 2-5,1-3); a
bare integer N parses as the range N-N, and whitespace around tokens
and around the hyphen is ignored (witnessed by the parse of the same
expression paded with spaces). -/
theorem claim4_parse_order_preserved :
    PdfService.parseRanges "1-3,5,7-9" 10
      = [⟨1, 3⟩, ⟨5, 5⟩, ⟨7, 9⟩] ∧
    (∀ (s : String) (m : Int),
      PdfService.parseRanges s m
        = (PdfService.jsSplitOnChar ',' s).filterMap (PdfService.parseRangeToken m)) ∧
    PdfService.parseRanges "2-5,1-3" 10 = [⟨2, 5⟩, ⟨1, 3⟩] ∧
    PdfService.parseRanges " 1 - 3 , 5 , 7 - 9 " 10
      = [⟨1, 3⟩, ⟨5, 5⟩, ⟨7, 9⟩] ∧
    PdfService.parseRangeToken 10 "5" = some ⟨5, 5⟩ :=
  ⟨by decide, PdfService.parseRanges_eq_filterMap, by decide, by decide, by decide⟩

/-- C2, counterexample: the claim says parsing 0-2 with maxPage 10
fails with OutOfBounds, but the embedded parser is a total function
into a range list and has no failure outcome at all: on 0-2 with
maxPage 10 it returns normally with the empty list (the token with
endpoint 0 is silently dropped). -/
theorem claim2_counterexample :
    PdfService.parseRanges "0-2" 10 = [] := by decide

/-- C2, amended: a token with an endpoint outside the 1..maxPage window
never causes a failure; it is silently dropped, so every token the
parser does accept has both endpoints inside the window, and parsing
0-2 with maxPage 10 returns the empty range list without any error. -/
theorem claim2_out_of_bounds_dropped :
    PdfService.parseRanges "0-2" 10 = [] ∧
    (∀ (m : Int) (part : String) (r : PdfService.PageRange),
      PdfService.parseRangeToken m part = some r → 1 ≤ r.start ∧ r.stop ≤ m) :=
  ⟨by decide, fun m part r h =>
    ⟨(PdfService.parseRangeToken_sound m part r h).1,
     (PdfService.parseRangeToken_sound m part r h).2.2⟩⟩

/-- C2, amended claim witness at a concrete accepted token: the token
3-4 is accepted under maxPage 10 and its endpoints lie in the window. -/
theorem claim2_amended_witness :
    1 ≤ (⟨3, 4⟩ : PdfService.PageRange).start ∧
      (⟨3, 4⟩ : PdfService.PageRange).stop ≤ 10 :=
  claim2_out_of_bounds_dropped.2 10 "3-4" ⟨3, 4⟩ (by decide)

/-- C10: the range parser is a total function (it terminates normally
and throws nothing, every malformed or out-of-window token being
silently omitted), and every range it returns satisfies
1 less-or-equal start less-or-equal end less-or-equal maxPages. -/
theorem claim10_parser_total_and_bounded (s : String) (m : Int)
    (r : PdfService.PageRange) (hr : r ∈ PdfService.parseRanges s m) :
    1 ≤ r.start ∧ r.start ≤ r.stop ∧ r.stop ≤ m := by
  rw [PdfService.parseRanges_eq_filterMap] at hr
  obtain ⟨part, _hpart, htok⟩ := List.mem_filterMap.mp hr
  exact PdfService.parseRangeToken_sound m part r htok

/-- C10 witness: in the expression 5-7,abc,0,11 with maxPages 10 the
well-formed token 5-7 is returned and satisfies the bounds, the other
tokens being dropped. -/
theorem claim10_witness :
    1 ≤ (⟨5, 7⟩ : PdfService.PageRange).start ∧
      (⟨5, 7⟩ : PdfService.PageRange).start ≤ (⟨5, 7⟩ : PdfService.PageRange).stop ∧
      (⟨5, 7⟩ : PdfService.PageRange).stop ≤ 10 :=
  claim10_parser_total_and_bounded "5-7,abc,0,11" 10 ⟨5, 7⟩ (by decide)

namespace PdfService

/-- Embedded pdf.getPageIndices(): the list 0 .. pageCount-1, a
document being abstracted for merging to its ordered page list. -/
def getPageIndices {α : Type} (pdf : List α) : List Nat := List.range pdf.length

/-- Embedded mergedPdf.copyPages(pdf, indices): the pages of the source
at the requested indices, in requested order. -/
def copyPages {α : Type} (src : List α) (indices : List Nat) : List α :=
  indices.filterMap (fun i => src[i]?)

/-- Embedded PdfService.mergePdfs: start from an empty document and,
for each source file in the order supplied, copy all its pages (at
indices getPageIndices, i.e. ascending) and append each to the merged
document. -/
def mergePdfs {α : Type} (files : List (List α)) : List α :=
  files.foldl (fun mergedPdf pdf => mergedPdf ++ copyPages pdf (getPageIndices pdf)) []

theorem filterMap_getElem_range' {α : Type} :
    ∀ (l₂ l₁ : List α),
      (List.range' l₁.length l₂.length).filterMap (fun i => (l₁ ++ l₂)[i]?) = l₂ := by
  intro l₂
  induction l₂ with
  | nil => intro l₁; simp
  | cons a t ih =>
    intro l₁
    rw [List.length_cons, List.range'_succ, List.filterMap_cons]
    have h0 : (l₁ ++ a :: t)[l₁.length]? = some a := by
      rw [List.getElem?_append_right (Nat.le_refl _)]
      simp
    rw [h0]
    have htail :
        (List.range' (l₁.length + 1) t.length).filterMap
            (fun i => (l₁ ++ a :: t)[i]?) = t := by
      have hassoc : l₁ ++ a :: t = (l₁ ++ [a]) ++ t := by simp
      have hlen : l₁.length + 1 = (l₁ ++ [a]).length := by simp
      rw [hassoc, hlen]
      exact ih (l₁ ++ [a])
    rw [htail]

/-- Copying a document at all its own indices reproduces the document. -/
theorem copyPages_getPageIndices {α : Type} (l : List α) :
    copyPages l (getPageIndices l) = l := by
  have h := filterMap_getElem_range' l ([] : List α)
  simpa [copyPages, getPageIndices, List.range_eq_range'] using h

theorem mergePdfs_foldl {α : Type} :
    ∀ (files : List (List α)) (acc : List α),
      files.foldl (fun mergedPdf pdf => mergedPdf ++ copyPages pdf (getPageIndices pdf)) acc
        = acc ++ files.flatten := by
  intro files
  induction files with
  | nil => intro acc; simp
  | cons f rest ih =>
    intro acc
    rw [List.foldl_cons, ih, copyPages_getPageIndices, List.flatten_cons,
      List.append_assoc]

end PdfService

/-- C5: merging produces one document whose pages are exactly the
concatenation of the source documents' pages, sources in the order
supplied and pages of each source in ascending index order, with no
reordering or deduplication; in particular a 2-page document A merged
with a 3-page document B gives the 5 pages A.p1 A.p2 B.p1 B.p2 B.p3 in
that order. -/
theorem claim5_merge_concatenates :
    (∀ (α : Type) (files : List (List α)),
      PdfService.mergePdfs files = files.flatten) ∧
    PdfService.mergePdfs [["A.p1", "A.p2"], ["B.p1", "B.p2", "B.p3"]]
      = ["A.p1", "A.p2", "B.p1", "B.p2", "B.p3"] :=
  ⟨fun α files => by
      have h := PdfService.mergePdfs_foldl files ([] : List α)
      simpa [PdfService.mergePdfs] using h,
    by decide⟩

namespace PdfService

/-- Embedded PdfService.rotatePdf acting on the only page state it
touches, the per-page rotation value: the source calls
page.setRotation(PDFLib.degrees(angleValue)) on every page, an absolute
assignment of the parsed angle that ignores the current rotation (the
width/height read in the loop is unused). -/
def rotatePdf (pages : List Int) (angleValue : Int) : List Int :=
  pages.map (fun _page => angleValue)

end PdfService

/-- C1, counterexample: rotation is assigned absolutely, not additively.
A document with one page of rotation 0 rotated twice by 90 ends at
rotation 90, while one rotation by 180 ends at 180, so the two are not
equivalent; and a page already at rotation 90 rotated by 90 ends at 90,
not at (90 + 90) mod 360 = 180 as the claim's formula requires. -/
theorem claim1_counterexample :
    PdfService.rotatePdf (PdfService.rotatePdf [0] 90) 90
        ≠ PdfService.rotatePdf [0] 180 ∧
    PdfService.rotatePdf [90] 90 ≠ [(90 + 90) % 360] := by
  constructor <;> decide

/-- C1, amended: the rotate operation sets every page's rotation to the
given angle, ignoring the page's current rotation, so for a fixed angle
the operation is idempotent: applying rotate with angle 90 twice yields
the same page rotations as applying rotate with angle 90 (not 180)
once. -/
theorem claim1_rotate_sets_absolute (pages : List Int) (angle : Int) :
    PdfService.rotatePdf pages angle = List.replicate pages.length angle ∧
    PdfService.rotatePdf (PdfService.rotatePdf pages 90) 90
      = PdfService.rotatePdf pages 90 := by
  constructor
  · simp [PdfService.rotatePdf, List.map_const']
  · simp [PdfService.rotatePdf]

namespace PdfService

/-- A page as the crop operation sees it: its media box, whose width
and height are what page.getSize() returns.  Coordinates are exact
rationals. -/
structure CropPage where
  x : Rat
  y : Rat
  width : Rat
  height : Rat
deriving DecidableEq, Repr

/-- The margin options of PdfService.cropPdf, in millimeters, plus the
allPages flag. -/
structure CropOpts where
  top : Rat
  right : Rat
  bottom : Rat
  left : Rat
  allPages : Bool
deriving DecidableEq, Repr

/-- The source constant mm: PDF points per millimeter. -/
def mmPt : Rat := 2.83465

/-- Body of the cropPdf loop for one page: build the crop box
left = left*mm, bottom = bottom*mm, right = width - right*mm,
top = height - top*mm and call
page.setMediaBox(box.left, box.bottom, box.right - box.left,
box.top - box.bottom).  No validation is performed on the resulting
width or height. -/
def cropPage (opts : CropOpts) (page : CropPage) : CropPage :=
  let cropLeft := opts.left * mmPt
  let cropBottom := opts.bottom * mmPt
  let cropRight := page.width - opts.right * mmPt
  let cropTop := page.height - opts.top * mmPt
  ⟨cropLeft, cropBottom, cropRight - cropLeft, cropTop - cropBottom⟩

/-- The page loop of cropPdf: the source iterates i over the pages and
executes (if (!allPages && i > 0) break) first, so with allPages false
every page after the first is left untouched. -/
def cropLoop (opts : CropOpts) : Nat → List CropPage → List CropPage
  | _, [] => []
  | i, p :: rest =>
    if !opts.allPages && i > 0 then p :: rest
    else cropPage opts p :: cropLoop opts (i + 1) rest

/-- Embedded PdfService.cropPdf on the page list of the loaded
document; the save-to-bytes step is the codec boundary. -/
def cropPdf (pages : List CropPage) (opts : CropOpts) : List CropPage :=
  cropLoop opts 0 pages

end PdfService

/-- C7, counterexample: the claim says crop fails with
DegenerateCropBox when the visible box becomes non-positive, but the
embedded crop is total and never fails: on a 100x100 page with
left = right = 20 mm (so left+right converted, 113.386, exceeds the
page width) it returns normally, producing a page of negative width
-13.386. -/
theorem claim7_counterexample :
    PdfService.cropPdf [⟨0, 0, 100, 100⟩] ⟨0, 20, 0, 20, true⟩
        = [⟨56.693, 0, -13.386, 100⟩] ∧
    (-13.386 : Rat) < 0 := by
  constructor
  · show PdfService.cropLoop _ 0 _ = _
    simp [PdfService.cropLoop, PdfService.cropPage, PdfService.mmPt]
    norm_num
  · norm_num

/-- C7, amended: crop performs no validation: it always succeeds, and
whenever the converted left and right margins together reach the page
width, the produced first page has visible-box width less or equal 0
(similarly no degenerate-box failure exists anywhere in the
operation). -/
theorem claim7_degenerate_box_produced (p : PdfService.CropPage)
    (rest : List PdfService.CropPage) (opts : PdfService.CropOpts)
    (h : p.width ≤ (opts.left + opts.right) * PdfService.mmPt) :
    ((PdfService.cropPdf (p :: rest) opts).map (·.width)).head?
        = some (p.width - opts.right * PdfService.mmPt - opts.left * PdfService.mmPt) ∧
    p.width - opts.right * PdfService.mmPt - opts.left * PdfService.mmPt ≤ 0 := by
  constructor
  · show ((PdfService.cropLoop opts 0 (p :: rest)).map (·.width)).head? = _
    cases hap : opts.allPages <;>
      simp [PdfService.cropLoop, PdfService.cropPage, hap]
  · have hexp : (opts.left + opts.right) * PdfService.mmPt
        = opts.left * PdfService.mmPt + opts.right * PdfService.mmPt := by ring
    rw [hexp] at h
    linarith

/-- C7, amended claim witness: the 100x100 page with 20 mm left and
right margins. -/
theorem claim7_amended_witness :
    ((PdfService.cropPdf [⟨0, 0, 100, 100⟩] ⟨0, 20, 0, 20, true⟩).map (·.width)).head?
        = some ((100 : Rat) - 20 * PdfService.mmPt - 20 * PdfService.mmPt) ∧
    (100 : Rat) - 20 * PdfService.mmPt - 20 * PdfService.mmPt ≤ 0 :=
  claim7_degenerate_box_produced ⟨0, 0, 100, 100⟩ [] ⟨0, 20, 0, 20, true⟩
    (by norm_num [PdfService.mmPt])

/-- C9: with allPages false, only the first page of the document is
cropped; the page count is preserved and every page after the first is
returned unchanged (its media box, hence width and height, identical),
while the first page becomes its cropped image. -/
theorem claim9_crop_first_page_only (pages : List PdfService.CropPage)
    (opts : PdfService.CropOpts) (hall : opts.allPages = false)
    (hlen : 2 ≤ pages.length) :
    (PdfService.cropPdf pages opts).length = pages.length ∧
    (PdfService.cropPdf pages opts).head?
        = pages.head?.map (PdfService.cropPage opts) ∧
    (∀ i, 1 ≤ i → (PdfService.cropPdf pages opts)[i]? = pages[i]?) := by
  match pages, hlen with
  | p :: q :: rest, _ =>
    have hloop : PdfService.cropPdf (p :: q :: rest) opts
        = PdfService.cropPage opts p :: q :: rest := by
      show PdfService.cropLoop opts 0 (p :: q :: rest) = _
      simp [PdfService.cropLoop, hall]
    refine ⟨by simp [hloop], by simp [hloop], ?_⟩
    intro i hi
    match i, hi with
    | Nat.succ j, _ => simp [hloop]

/-- C9 witness: a two-page document cropped with allPages false keeps
its second page untouched. -/
theorem claim9_witness :
    (PdfService.cropPdf [⟨0, 0, 100, 100⟩, ⟨0, 0, 200, 300⟩] ⟨1, 2, 3, 4, false⟩).length
        = ([⟨0, 0, 100, 100⟩, ⟨0, 0, 200, 300⟩] : List PdfService.CropPage).length ∧
    (PdfService.cropPdf [⟨0, 0, 100, 100⟩, ⟨0, 0, 200, 300⟩] ⟨1, 2, 3, 4, false⟩).head?
        = ([⟨0, 0, 100, 100⟩, ⟨0, 0, 200, 300⟩] : List PdfService.CropPage).head?.map
            (PdfService.cropPage ⟨1, 2, 3, 4, false⟩) ∧
    (∀ i, 1 ≤ i →
      (PdfService.cropPdf [⟨0, 0, 100, 100⟩, ⟨0, 0, 200, 300⟩] ⟨1, 2, 3, 4, false⟩)[i]?
        = ([⟨0, 0, 100, 100⟩, ⟨0, 0, 200, 300⟩] : List PdfService.CropPage)[i]?) :=
  claim9_crop_first_page_only [⟨0, 0, 100, 100⟩, ⟨0, 0, 200, 300⟩]
    ⟨1, 2, 3, 4, false⟩ rfl (by decide)

namespace PdfService

/-- One step of the table cell splitter modelling the regex
split(two-or-more-whitespace-or-tab): walk the characters keeping the
pending whitespace run (ws) and the current cell; a non-whitespace
character classifies the pending run — a run of length at least 2, or a
lone tab, is a separator, while a lone non-tab whitespace belongs to
the cell; at the end of the line the pending run is classified the same
way (a trailing separator yields a final empty piece, exactly as the
JavaScript split does). -/
def splitCellsGo : List Char → List Char → List Char → List (List Char)
  | [], ws, cell =>
    if 2 ≤ ws.length ∨ ws = ['\t'] then [cell, []] else [cell ++ ws]
  | c :: rest, ws, cell =>
    if jsWhitespace c then splitCellsGo rest (ws ++ [c]) cell
    else if 2 ≤ ws.length ∨ ws = ['\t'] then
      cell :: splitCellsGo rest [] [c]
    else splitCellsGo rest [] (cell ++ ws ++ [c])

/-- Embedded line.split(regex of two-or-more whitespace or tab). -/
def jsSplitCells (line : String) : List String :=
  (splitCellsGo line.data [] []).map String.mk

/-- The per-line row of extractTableFromPdf: split on the whitespace
regex, trim each cell, keep the truthy (non-empty) cells. -/
def rowOfLine (line : String) : List String :=
  ((jsSplitCells line).map jsTrim).filter (fun cell => cell ≠ "")

/-- The push condition of the line loop: a line is kept exactly when
its row has more than one cell. -/
def keptRow (line : String) : Option (List String) :=
  let row := rowOfLine line
  if row.length > 1 then some row else none

/-- The lines of one page: the source joins the text items with a
newline and splits on newlines again
(items.map(item to item.str).join with newline, then split on
newline). -/
def linesOfPage (items : List String) : List String :=
  jsSplitOnChar '\n' (String.intercalate "\n" items)

/-- Embedded row-collection loop of PdfService.extractTableFromPdf: for
every page in order, for every line of the page, push the row when it
has at least two non-empty cells. -/
def tableRows (pagesItems : List (List String)) : List (List String) :=
  pagesItems.foldl
    (fun allRows items => (linesOfPage items).foldl (pushIfSome keptRow) allRows)
    []

/-- Embedded PdfService.extractTableFromPdf on the per-page text items:
throws (models as Except.error) the message No tables detected. exactly
when zero rows survive; on success the source serializes the collected
rows to CSV and XLSX through the external SheetJS library, so the row
matrix is the modelled result.  (The catch clause re-wraps the thrown
message with the prefix Table extraction failed:, a renaming the claim
does not depend on.) -/
def extractTableFromPdf (pagesItems : List (List String)) :
    Except String (List (List String)) :=
  let allRows := tableRows pagesItems
  if allRows.length = 0 then Except.error "No tables detected."
  else Except.ok allRows

/-- Row extraction stated in the words of the specification: for each
page, split each line on runs of at least 2 whitespace characters or a
tab, trim each cell, discard empty cells, and keep only the lines
yielding at least 2 non-empty cells.  Defined independently of the
loop shape of the source for comparison. -/
def specTableRows (pagesItems : List (List String)) : List (List String) :=
  pagesItems.flatMap (fun items =>
    (linesOfPage items).filterMap (fun line =>
      let cells := ((jsSplitCells line).map jsTrim).filter (fun cell => cell ≠ "")
      if 2 ≤ cells.length then some cells else none))

theorem tableRows_aux :
    ∀ (pages : List (List String)) (acc : List (List String)),
      pages.foldl
          (fun allRows items => (linesOfPage items).foldl (pushIfSome keptRow) allRows)
          acc
        = acc ++ specTableRows pages := by
  intro pages
  induction pages with
  | nil => intro acc; simp [specTableRows]
  | cons p rest ih =>
    intro acc
    rw [List.foldl_cons, foldl_push_eq_filterMap, ih]
    show _ = acc ++ (p :: rest).flatMap _
    rw [List.flatMap_cons, List.append_assoc]
    rfl

theorem tableRows_eq_spec (pages : List (List String)) :
    tableRows pages = specTableRows pages := by
  have h := tableRows_aux pages []
  rw [List.nil_append] at h
  exact h

/-- A kept row has at least two cells and no empty cell. -/
theorem keptRow_sound (line : String) (row : List String)
    (h : keptRow line = some row) :
    2 ≤ row.length ∧ ∀ cell ∈ row, cell ≠ "" := by
  unfold keptRow at h
  dsimp only at h
  split at h
  · rename_i hlen
    cases h
    refine ⟨hlen, ?_⟩
    intro cell hcell
    have := List.of_mem_filter (p := fun cell => cell ≠ "") hcell
    simpa using this
  · exact absurd h (by simp)

end PdfService

/-- C8: the extracted table consists exactly of the rows described by
the specification — per page and per line, split the line on runs of
at least 2 whitespace characters or a tab, trim each cell, discard the
empty cells, keep the lines with at least 2 surviving cells — and the
operation fails with the No-tables-detected error if and only if zero
such rows survive across all pages; every returned row has at least
two non-empty cells. -/
theorem claim8_table_extraction (pages : List (List String)) :
    PdfService.tableRows pages = PdfService.specTableRows pages ∧
    PdfService.extractTableFromPdf pages
      = (if PdfService.specTableRows pages = []
         then Except.error "No tables detected."
         else Except.ok (PdfService.specTableRows pages)) ∧
    (∀ row ∈ PdfService.tableRows pages,
      2 ≤ row.length ∧ ∀ cell ∈ row, cell ≠ "") := by
  have hspec := PdfService.tableRows_eq_spec pages
  refine ⟨hspec, ?_, ?_⟩
  · unfold PdfService.extractTableFromPdf
    rw [hspec]
    by_cases hnil : PdfService.specTableRows pages = []
    · simp [hnil]
    · rw [if_neg hnil, if_neg ?_]
      exact fun hlen => hnil (List.eq_nil_of_length_eq_zero hlen)
  · intro row hrow
    rw [hspec, PdfService.specTableRows] at hrow
    obtain ⟨items, _hitems, hrl⟩ := List.mem_flatMap.mp hrow
    obtain ⟨line, _hline, hkeep⟩ := List.mem_filterMap.mp hrl
    have : PdfService.keptRow line = some row := by
      unfold PdfService.keptRow PdfService.rowOfLine
      dsimp only
      exact hkeep
    exact PdfService.keptRow_sound line row this

/-- C8 witness: on a one-page document whose lines are Name--Age
(double space) and solo, the single tabular line survives and the
extraction succeeds with it. -/
theorem claim8_witness :
    PdfService.tableRows [["Name  Age", "solo"]]
      = PdfService.specTableRows [["Name  Age", "solo"]] :=
  (claim8_table_extraction [["Name  Age", "solo"]]).1

namespace PdfService

/-- One output of a split: the 0-based page indices copied into the
output document, and the output file name. -/
structure SplitOutput where
  indices : List Nat
  name : String
deriving DecidableEq, Repr

instance : Inhabited SplitOutput := ⟨⟨[], ""⟩⟩

/-- JavaScript x || d on a parsed integer: NaN (none) and 0 are falsy
and give the default. -/
def jsOrDefault (v : Option Int) (d : Int) : Int :=
  match v with
  | none => d
  | some k => if k = 0 then d else k

/-- The chunk loop of the pages method:
for (i = 0; i < pageCount; i += pagesPerChunk) emit the group of pages
i .. min(i+pagesPerChunk, pageCount)-1 named with its 1-based inclusive
span.  The chunk size is passed as its predecessor sizePred (the source
guarantees pagesPerChunk at least 1 via Math.max(1, ...), so the size
is sizePred+1 exactly), and fuel bounds the iteration count so the
recursion is structural; fuel = pageCount always suffices because i
advances by at least 1 per iteration. -/
def chunkGroupsF (pageCount sizePred : Nat) : Nat → Nat → List SplitOutput
  | _, 0 => []
  | i, fuel + 1 =>
    if i < pageCount then
      let endPage := min (i + sizePred + 1) pageCount
      ⟨List.range' i (endPage - i),
        "pages_" ++ Nat.repr (i + 1) ++ "-" ++ Nat.repr endPage ++ ".pdf"⟩
        :: chunkGroupsF pageCount sizePred (i + sizePred + 1) fuel
    else []

/-- The page indices of one explicit range:
for (page = range.start - 1; page < range.end; page++) push(page).
For the ranges the parser returns (1 <= start <= end) this is the run
start-1 .. end-1. -/
def rangeIndices (r : PageRange) : List Nat :=
  List.range' (r.start - 1).toNat (r.stop - r.start + 1).toNat

/-- Embedded PdfService._splitWithPDFLib on the loaded document's page
count (the split outputs are determined by the copied index groups and
names; the per-group save is the codec boundary).  Mirrors the three
method branches of the source: each, pages (chunks, with
parseInt(ranges or 5, 10) or 5 coerced through Math.max(1, .)), and
range (guarded by a truthy ranges string). -/
def splitWithPDFLib (pageCount : Nat) (method : String) (ranges : Option String) :
    List SplitOutput :=
  if method = "each" then
    (List.range pageCount).map (fun i => ⟨[i], "page_" ++ Nat.repr (i + 1) ++ ".pdf"⟩)
  else if method = "pages" then
    let rangesOr5 := match ranges with
      | none => "5"
      | some s => if s = "" then "5" else s
    let pagesPerChunk := (max 1 (jsOrDefault (jsParseInt10 rangesOr5) 5)).toNat
    chunkGroupsF pageCount (pagesPerChunk - 1) 0 pageCount
  else if method = "range" then
    match ranges with
    | some rs =>
      if rs = "" then []
      else
        (parseRanges rs (pageCount : Int)).map (fun r =>
          ⟨rangeIndices r, "pages_" ++ toString r.start ++ "-" ++ toString r.stop ++ ".pdf"⟩)
    | none => []
  else []

/-- Once the loop counter has reached the page count the chunk loop
stops, whatever fuel remains. -/
theorem chunkGroupsF_stop (pc sp : Nat) :
    ∀ (fuel i : Nat), pc ≤ i → chunkGroupsF pc sp i fuel = [] := by
  intro fuel i h
  cases fuel with
  | zero => rfl
  | succ fuel => simp [chunkGroupsF, Nat.not_lt.mpr h]

/-- Full characterisation of the chunk loop from counter i with enough
fuel: the emitted groups are non-empty, their indices concatenate to
the run i .. pageCount-1, every group is a non-empty contiguous run
named by its 1-based inclusive span, every group except the last has
exactly sizePred+1 pages, and the last group has the remainder
(pageCount - i) mod (sizePred+1), or sizePred+1 when that remainder is
zero. -/
theorem chunkGroupsF_spec (pc sp : Nat) :
    ∀ (fuel i : Nat), pc - i ≤ fuel → i < pc →
      chunkGroupsF pc sp i fuel ≠ [] ∧
      ((chunkGroupsF pc sp i fuel).map (fun g => g.indices)).flatten
          = List.range' i (pc - i) ∧
      (∀ g ∈ chunkGroupsF pc sp i fuel, ∃ a n,
          g.indices = List.range' a (n + 1) ∧
          g.name = "pages_" ++ Nat.repr (a + 1) ++ "-" ++ Nat.repr (a + n + 1) ++ ".pdf") ∧
      (∀ k g, (chunkGroupsF pc sp i fuel)[k]? = some g →
          k + 1 < (chunkGroupsF pc sp i fuel).length → g.indices.length = sp + 1) ∧
      (∀ g, (chunkGroupsF pc sp i fuel).getLast? = some g →
          g.indices.length =
            if (pc - i) % (sp + 1) = 0 then sp + 1 else (pc - i) % (sp + 1)) := by
  intro fuel
  induction fuel with
  | zero => intro i hfi hi; omega
  | succ fuel ih =>
    intro i hfi hi
    have hstep : chunkGroupsF pc sp i (fuel + 1)
        = ⟨List.range' i (min (i + sp + 1) pc - i),
            "pages_" ++ Nat.repr (i + 1) ++ "-" ++ Nat.repr (min (i + sp + 1) pc) ++ ".pdf"⟩
          :: chunkGroupsF pc sp (i + sp + 1) fuel := by
      simp only [chunkGroupsF, if_pos hi]
    by_cases hlast : pc ≤ i + sp + 1
    · have hrec : chunkGroupsF pc sp (i + sp + 1) fuel = [] :=
        chunkGroupsF_stop pc sp fuel (i + sp + 1) hlast
      have hmin : min (i + sp + 1) pc = pc := by omega
      rw [hstep, hrec, hmin]
      refine ⟨by simp, by simp, ?_, ?_, ?_⟩
      · intro g hg
        rw [List.mem_singleton] at hg
        subst hg
        refine ⟨i, pc - i - 1, ?_, ?_⟩
        · show List.range' i (pc - i) = List.range' i (pc - i - 1 + 1)
          congr 1
          omega
        · show "pages_" ++ Nat.repr (i + 1) ++ "-" ++ Nat.repr pc ++ ".pdf" = _
          have h : i + (pc - i - 1) + 1 = pc := by omega
          rw [h]
      · intro k g _hk hklen
        simp at hklen
      · intro g hg
        simp only [List.getLast?_singleton, Option.some.injEq] at hg
        subst hg
        simp only [List.length_range']
        by_cases hd : pc - i = sp + 1
        · rw [hd, Nat.mod_self, if_pos rfl]
        · have hlt : pc - i < sp + 1 := by omega
          have h1 : 1 ≤ pc - i := by omega
          rw [Nat.mod_eq_of_lt hlt, if_neg (by omega)]
    · have hi' : i + sp + 1 < pc := by omega
      have hfi' : pc - (i + sp + 1) ≤ fuel := by omega
      obtain ⟨hne, hflat, hgroups, hmid, hlastlen⟩ := ih (i + sp + 1) hfi' hi'
      have hmin : min (i + sp + 1) pc = i + sp + 1 := by omega
      rw [hstep, hmin]
      have hg0len : (i + sp + 1) - i = sp + 1 := by omega
      refine ⟨by simp, ?_, ?_, ?_, ?_⟩
      · rw [List.map_cons, List.flatten_cons, hflat, hg0len]
        show List.range' i (sp + 1) ++ List.range' (i + sp + 1) (pc - (i + sp + 1))
            = List.range' i (pc - i)
        have happ := List.range'_append_1 i (sp + 1) (pc - (i + sp + 1))
        rw [show i + (sp + 1) = i + sp + 1 by omega] at happ
        rw [happ]
        congr 1
        omega
      · intro g hg
        rcases List.mem_cons.mp hg with hg0 | hgrest
        · subst hg0
          exact ⟨i, sp, by rw [hg0len], by rw [show i + sp + 1 = i + sp + 1 from rfl]⟩
        · exact hgroups g hgrest
      · intro k g hk hklen
        cases k with
        | zero =>
          simp only [List.getElem?_cons_zero, Option.some.injEq] at hk
          subst hk
          simp [hg0len]
        | succ j =>
          simp only [List.getElem?_cons_succ] at hk
          simp only [List.length_cons] at hklen
          exact hmid j g hk (by omega)
      · intro g hg
        obtain ⟨b, rest', hrest⟩ : ∃ b rest',
            chunkGroupsF pc sp (i + sp + 1) fuel = b :: rest' := by
          cases hcase : chunkGroupsF pc sp (i + sp + 1) fuel with
          | nil => exact absurd hcase hne
          | cons b rest' => exact ⟨b, rest', rfl⟩
        rw [hrest, List.getLast?_cons_cons] at hg
        have := hlastlen g (by rw [hrest]; exact hg)
        have hmod : (pc - i) % (sp + 1) = (pc - (i + sp + 1)) % (sp + 1) := by
          have heq : pc - i = (pc - (i + sp + 1)) + (sp + 1) := by omega
          rw [heq, Nat.add_mod_right]
        rw [hmod]
        exact this

end PdfService

namespace PdfService

/-- With the pages method, a parsable chunk size of at least 1 reaches
the chunk loop unchanged (the or-5 and Math.max(1,.) coercions are
identities there). -/
theorem splitWithPDFLib_pages_eq (pageCount : Nat) (sizeStr : String) (size : Int)
    (hparse : jsParseInt10 sizeStr = some size) (hsize : 1 ≤ size) :
    splitWithPDFLib pageCount "pages" (some sizeStr)
      = chunkGroupsF pageCount (size.toNat - 1) 0 pageCount := by
  have hne : sizeStr ≠ "" := by
    intro h
    subst h
    rw [show jsParseInt10 "" = none from rfl] at hparse
    exact Option.noConfusion hparse
  unfold splitWithPDFLib
  rw [if_neg (by decide), if_pos rfl]
  dsimp only
  rw [if_neg hne, hparse]
  have hdef : jsOrDefault (some size) 5 = size := by
    show (if size = 0 then (5 : Int) else size) = size
    rw [if_neg (by omega)]
  rw [hdef, max_eq_right hsize]

end PdfService

/-- C3: for a document of at least one page and a chunk size of at
least 1, the pages split produces a non-empty group list whose index
lists concatenate to exactly the 0-based pages 0..pageCount-1 in
order (a partition into contiguous runs), every group but the last has
exactly size pages, the last group has pageCount mod size pages (or
size when that remainder is 0), and every group is a contiguous run
named pages_{start}-{end}.pdf by its 1-based inclusive page span. -/
theorem claim3_fixed_chunk_split (pageCount : Nat) (sizeStr : String) (size : Int)
    (hpc : 1 ≤ pageCount) (hparse : PdfService.jsParseInt10 sizeStr = some size)
    (hsize : 1 ≤ size) (groups : List PdfService.SplitOutput)
    (hg : groups = PdfService.splitWithPDFLib pageCount "pages" (some sizeStr)) :
    groups ≠ [] ∧
    ((groups.map (fun g => g.indices)).flatten = List.range pageCount) ∧
    (∀ k g, groups[k]? = some g → k + 1 < groups.length →
        g.indices.length = size.toNat) ∧
    (∀ g, groups.getLast? = some g →
        g.indices.length =
          if pageCount % size.toNat = 0 then size.toNat else pageCount % size.toNat) ∧
    (∀ g ∈ groups, ∃ a n, g.indices = List.range' a (n + 1) ∧
        g.name = "pages_" ++ Nat.repr (a + 1) ++ "-" ++ Nat.repr (a + n + 1) ++ ".pdf") := by
  have hsz1 : 1 ≤ size.toNat := by omega
  have hsp : size.toNat - 1 + 1 = size.toNat := by omega
  rw [PdfService.splitWithPDFLib_pages_eq pageCount sizeStr size hparse hsize] at hg
  obtain ⟨hne, hflat, hgroups, hmid, hlast⟩ :=
    PdfService.chunkGroupsF_spec pageCount (size.toNat - 1) pageCount 0
      (by omega) (by omega)
  rw [Nat.sub_zero] at hflat hlast
  rw [hsp] at hmid hlast
  subst hg
  refine ⟨hne, ?_, hmid, hlast, hgroups⟩
  rw [hflat, List.range_eq_range']

/-- C3 witness: 7 pages split into chunks of 3 satisfy the partition,
group-size and naming properties (groups 0-2, 3-5, 6, named
pages_1-3.pdf, pages_4-6.pdf, pages_7-7.pdf). -/
theorem claim3_witness :
    PdfService.splitWithPDFLib 7 "pages" (some "3") ≠ [] ∧
    (((PdfService.splitWithPDFLib 7 "pages" (some "3")).map
        (fun g => g.indices)).flatten = List.range 7) ∧
    (∀ k g, (PdfService.splitWithPDFLib 7 "pages" (some "3"))[k]? = some g →
        k + 1 < (PdfService.splitWithPDFLib 7 "pages" (some "3")).length →
        g.indices.length = (3 : Int).toNat) ∧
    (∀ g, (PdfService.splitWithPDFLib 7 "pages" (some "3")).getLast? = some g →
        g.indices.length =
          if 7 % (3 : Int).toNat = 0 then (3 : Int).toNat else 7 % (3 : Int).toNat) ∧
    (∀ g ∈ PdfService.splitWithPDFLib 7 "pages" (some "3"), ∃ a n,
        g.indices = List.range' a (n + 1) ∧
        g.name = "pages_" ++ Nat.repr (a + 1) ++ "-" ++ Nat.repr (a + n + 1) ++ ".pdf") :=
  claim3_fixed_chunk_split 7 "3" 3 (by decide) (by decide) (by decide)
    (PdfService.splitWithPDFLib 7 "pages" (some "3")) rfl

/-- C6, counterexample: the claim says a range split whose parsed range
set is empty fails with EmptyRangeSet, but the embedded split is total
and has no such failure: on a 10-page document with the range
expression 0-2 (every token dropped as out of bounds) it returns
normally with zero output documents. -/
theorem claim6_counterexample :
    PdfService.splitWithPDFLib 10 "range" (some "0-2") = [] := by decide

/-- C6, amended: when the parsed range set is empty, the range split
succeeds with an empty list of output documents; no EmptyRangeSet
failure exists, neither in the split service nor in its caller, which
renders whatever download links the (empty) result yields. -/
theorem claim6_empty_rangeset_zero_outputs (pageCount : Nat) (s : String)
    (hs : s ≠ "") (hempty : PdfService.parseRanges s (pageCount : Int) = []) :
    PdfService.splitWithPDFLib pageCount "range" (some s) = [] := by
  unfold PdfService.splitWithPDFLib
  rw [if_neg (by decide), if_neg (by decide), if_pos rfl]
  dsimp only
  rw [if_neg hs, hempty]
  rfl

/-- C6, amended claim witness: a 5-page document split with ranges
11-12 (entirely above the page count, hence an empty parsed set)
produces zero outputs. -/
theorem claim6_witness :
    PdfService.splitWithPDFLib 5 "range" (some "11-12") = [] :=
  claim6_empty_rangeset_zero_outputs 5 "11-12" (by decide) (by decide)
